import Mathlib

/-!
Verification development for the GitHub client plugin (src/client.ts,
src/environment.ts, src/index.ts, bundled in the distributed module).

The TypeScript source is shallowly embedded: each method of `GitHubClient`
becomes an executable Lean function over explicit state.  File contents are
byte lists (`List Nat`, each entry a byte).  The knowledge sink
(`runtime.documentsManager` / `knowledge.set`) is an association list from
knowledge identifiers to stored content hashes, looked up with
`getMemoryById` semantics and updated with upsert semantics.  External
primitives the code calls (Node's `crypto` SHA-256, `fs.readFile` with the
"utf-8" encoding, the `glob` matcher, `simple-git`) are modelled from their
documented behaviour, since their implementations live outside this
repository.
-/

/-! ### SHA-256, modelling Node `createHash("sha256")` -/

/-- Truncation to a 32-bit word. -/
def w32 (x : Nat) : Nat := x % 4294967296

/-- Right rotation of a 32-bit word by `n` bits. -/
def rotr (n x : Nat) : Nat := w32 ((x >>> n) ||| (x <<< (32 - n)))

/-- SHA-256 message-schedule sigma-0. -/
def smallSigma0 (x : Nat) : Nat := (rotr 7 x) ^^^ (rotr 18 x) ^^^ (x >>> 3)

/-- SHA-256 message-schedule sigma-1. -/
def smallSigma1 (x : Nat) : Nat := (rotr 17 x) ^^^ (rotr 19 x) ^^^ (x >>> 10)

/-- SHA-256 compression Sigma-0. -/
def bigSigma0 (x : Nat) : Nat := (rotr 2 x) ^^^ (rotr 13 x) ^^^ (rotr 22 x)

/-- SHA-256 compression Sigma-1. -/
def bigSigma1 (x : Nat) : Nat := (rotr 6 x) ^^^ (rotr 11 x) ^^^ (rotr 25 x)

/-- SHA-256 choice function (bitwise complement taken inside 32 bits). -/
def chFn (x y z : Nat) : Nat := (x &&& y) ^^^ ((x ^^^ 4294967295) &&& z)

/-- SHA-256 majority function. -/
def majFn (x y z : Nat) : Nat := (x &&& y) ^^^ (x &&& z) ^^^ (y &&& z)

/-- The 64 SHA-256 round constants. -/
def sha256K : List Nat :=
  [1116352408, 1899447441, 3049323471, 3921009573, 961987163,
   1508970993, 2453635748, 2870763221, 3624381080, 310598401,
   607225278, 1426881987, 1925078388, 2162078206, 2614888103,
   3248222580, 3835390401, 4022224774, 264347078, 604807628,
   770255983, 1249150122, 1555081692, 1996064986, 2554220882,
   2821834349, 2952996808, 3210313671, 3336571891, 3584528711,
   113926993, 338241895, 666307205, 773529912, 1294757372,
   1396182291, 1695183700, 1986661051, 2177026350, 2456956037,
   2730485921, 2820302411, 3259730800, 3345764771, 3516065817,
   3600352804, 4094571909, 275423344, 430227734, 506948616,
   659060556, 883997877, 958139571, 1322822218, 1537002063,
   1747873779, 1955562222, 2024104815, 2227730452, 2361852424,
   2428436474, 2756734187, 3204031479, 3329325298]

/-- The SHA-256 initial hash state. -/
def sha256H0 : List Nat :=
  [1779033703, 3144134277, 1013904242, 2773480762,
   1359893119, 2600822924, 528734635, 1541459225]

/-- SHA-256 padding: append 0x80, zero bytes, and the 64-bit big-endian bit length,
reaching a multiple of 64 bytes. -/
def sha256pad (msg : List Nat) : List Nat :=
  let len := msg.length
  let padZeros := (119 - len % 64) % 64
  msg ++ 0x80 :: List.replicate padZeros 0 ++
    (List.range 8).map (fun i => ((8 * len) >>> (8 * (7 - i))) % 256)

/-- Group bytes into big-endian 32-bit words. -/
def bytesToWords : List Nat → List Nat
  | b0 :: b1 :: b2 :: b3 :: rest =>
      (((b0 * 256 + b1) * 256 + b2) * 256 + b3) :: bytesToWords rest
  | _ => []

/-- Extend a 16-word block by `n` further schedule words. -/
def extendSchedule : List Nat → Nat → List Nat
  | ws, 0 => ws
  | ws, n + 1 =>
      let i := ws.length
      let w := w32 (ws.getD (i - 16) 0 + smallSigma0 (ws.getD (i - 15) 0) +
                    ws.getD (i - 7) 0 + smallSigma1 (ws.getD (i - 2) 0))
      extendSchedule (ws ++ [w]) n

/-- One SHA-256 compression round applied to the 8-word working state. -/
def compressRound (st : List Nat) (kw : Nat × Nat) : List Nat :=
  match st with
  | [a, b, c, d, e, f, g, h] =>
      let t1 := w32 (h + bigSigma1 e + chFn e f g + kw.1 + kw.2)
      let t2 := w32 (bigSigma0 a + majFn a b c)
      [w32 (t1 + t2), a, b, c, w32 (d + t1), e, f, g]
  | other => other

/-- SHA-256 compression of one 16-word block into the hash state. -/
def sha256Compress (h : List Nat) (block : List Nat) : List Nat :=
  let w := extendSchedule block 48
  let st := (sha256K.zip w).foldl compressRound h
  (h.zip st).map (fun p => w32 (p.1 + p.2))

/-- Fold the compression over successive 16-word blocks (fuel bounds the number
of blocks; one word of fuel per input word is always enough). -/
def sha256BlocksAux : Nat → List Nat → List Nat → List Nat
  | 0, h, _ => h
  | _, h, [] => h
  | fuel + 1, h, ws => sha256BlocksAux fuel (sha256Compress h (ws.take 16)) (ws.drop 16)

/-- SHA-256 digest of a byte list, as the 8 final state words. -/
def sha256Words (msg : List Nat) : List Nat :=
  let ws := bytesToWords (sha256pad msg)
  sha256BlocksAux ws.length sha256H0 ws

/-- Lower-case hexadecimal digit. -/
def hexDigit (n : Nat) : Char := if n < 10 then Char.ofNat (48 + n) else Char.ofNat (87 + n)

/-- Eight hex digits of a 32-bit word, most significant first. -/
def wordToHex (w : Nat) : List Char :=
  (List.range 8).map (fun i => hexDigit ((w >>> (28 - 4 * i)) % 16))

/-- SHA-256 digest of a byte list as a lower-case hex string, as produced by
`createHash("sha256").update(content).digest("hex")`. -/
def sha256Hex (msg : List Nat) : String :=
  ⟨(sha256Words msg).flatMap wordToHex⟩

/-! ### UTF-8, modelling `fs.readFile(file, "utf-8")` and `hash.update(string)`

`fs.readFile` with the "utf-8" encoding decodes raw file bytes to a JavaScript
string, replacing ill-formed sequences with U+FFFD following the WHATWG
decoder; `hash.update` on a string re-encodes it as UTF-8.  Text is modelled
as a list of Unicode code points. -/

/-- UTF-8 encoding of a single code point. -/
def utf8EncodeChar (c : Nat) : List Nat :=
  if c < 0x80 then [c]
  else if c < 0x800 then [0xC0 ||| (c >>> 6), 0x80 ||| (c &&& 0x3F)]
  else if c < 0x10000 then
    [0xE0 ||| (c >>> 12), 0x80 ||| ((c >>> 6) &&& 0x3F), 0x80 ||| (c &&& 0x3F)]
  else
    [0xF0 ||| (c >>> 18), 0x80 ||| ((c >>> 12) &&& 0x3F),
     0x80 ||| ((c >>> 6) &&& 0x3F), 0x80 ||| (c &&& 0x3F)]

/-- UTF-8 encoding of a code-point sequence. -/
def utf8Encode (cs : List Nat) : List Nat := cs.flatMap utf8EncodeChar

/-- Is the byte a UTF-8 continuation byte. -/
def isCont (b : Nat) : Bool := 0x80 ≤ b && b < 0xC0

/-- Admissible second byte after a three-byte lead (excludes overlong forms and
surrogates). -/
def cont2Ok (b b2 : Nat) : Bool :=
  if b = 0xE0 then 0xA0 ≤ b2 && b2 < 0xC0
  else if b = 0xED then 0x80 ≤ b2 && b2 < 0xA0
  else isCont b2

/-- Admissible second byte after a four-byte lead (excludes overlong forms and
values above U+10FFFF). -/
def cont4Ok (b b2 : Nat) : Bool :=
  if b = 0xF0 then 0x90 ≤ b2 && b2 < 0xC0
  else if b = 0xF4 then 0x80 ≤ b2 && b2 < 0x90
  else isCont b2

/-- WHATWG lossy UTF-8 decoding with explicit fuel (one unit per input byte is
always enough, since every step consumes at least one byte). -/
def utf8DecodeAux : Nat → List Nat → List Nat
  | 0, _ => []
  | _, [] => []
  | fuel + 1, b :: rest =>
    if b < 0x80 then b :: utf8DecodeAux fuel rest
    else if b < 0xC2 then 0xFFFD :: utf8DecodeAux fuel rest
    else if b < 0xE0 then
      match rest with
      | b2 :: rest2 =>
        if isCont b2 then (((b - 0xC0) <<< 6) ||| (b2 - 0x80)) :: utf8DecodeAux fuel rest2
        else 0xFFFD :: utf8DecodeAux fuel rest
      | [] => [0xFFFD]
    else if b < 0xF0 then
      match rest with
      | b2 :: b3 :: rest3 =>
        if cont2Ok b b2 then
          if isCont b3 then
            (((b - 0xE0) <<< 12) ||| ((b2 - 0x80) <<< 6) ||| (b3 - 0x80)) ::
              utf8DecodeAux fuel rest3
          else 0xFFFD :: utf8DecodeAux fuel (b3 :: rest3)
        else 0xFFFD :: utf8DecodeAux fuel rest
      | [b2] =>
        if cont2Ok b b2 then [0xFFFD]
        else 0xFFFD :: utf8DecodeAux fuel [b2]
      | [] => [0xFFFD]
    else if b < 0xF5 then
      match rest with
      | b2 :: b3 :: b4 :: rest4 =>
        if cont4Ok b b2 then
          if isCont b3 then
            if isCont b4 then
              (((b - 0xF0) <<< 18) ||| ((b2 - 0x80) <<< 12) |||
                ((b3 - 0x80) <<< 6) ||| (b4 - 0x80)) :: utf8DecodeAux fuel rest4
            else 0xFFFD :: utf8DecodeAux fuel (b4 :: rest4)
          else 0xFFFD :: utf8DecodeAux fuel (b3 :: b4 :: rest4)
        else 0xFFFD :: utf8DecodeAux fuel rest
      | [b2, b3] =>
        if cont4Ok b b2 then
          if isCont b3 then [0xFFFD]
          else 0xFFFD :: utf8DecodeAux fuel [b3]
        else 0xFFFD :: utf8DecodeAux fuel [b2, b3]
      | [b2] =>
        if cont4Ok b b2 then [0xFFFD]
        else 0xFFFD :: utf8DecodeAux fuel [b2]
      | [] => [0xFFFD]
    else 0xFFFD :: utf8DecodeAux fuel rest

/-- Lossy UTF-8 decoding of a byte list to a code-point list. -/
def utf8DecodeLossy (bs : List Nat) : List Nat := utf8DecodeAux bs.length bs

/-- The byte sequence actually fed to SHA-256 by the scan loop: the UTF-8
re-encoding of the lossily decoded file bytes. -/
def hashInput (bytes : List Nat) : List Nat := utf8Encode (utf8DecodeLossy bytes)

/-- The content fingerprint the scan stores for a file, from
`createHash("sha256").update(content).digest("hex")` where `content` is the
string read by `fs.readFile(file, "utf-8")`. -/
def contentHash (bytes : List Nat) : String := sha256Hex (hashInput bytes)

/-! ### Knowledge sink and the scan loop (`createMemoriesFromFiles`) -/

/-- The knowledge sink state: stored documents as an association list from
knowledge identifier to the stored content hash (`content["hash"]`). -/
abbrev Store := List (String × String)

/-- An upsert into the knowledge sink (`knowledge.set`): the new binding
shadows any previous binding for the same identifier. -/
def storeSet (store : Store) (id h : String) : Store := (id, h) :: store

/-- The knowledge identifier seed string built by the scan loop:
`github-${owner}-${repo}-${relativePath}` (the deterministic `stringToUuid`
applied on top maps equal strings to equal identifiers, so identity of this
seed is identity of the identifier). -/
def knowledgeId (owner repo relativePath : String) : String :=
  "github-" ++ owner ++ "-" ++ repo ++ "-" ++ relativePath

/-- A file enumerated by the glob scan: its path relative to the repository
root, and the outcome of `fs.readFile` on it (`none` when the read fails). -/
structure ScanFile where
  relativePath : String
  bytes : Option (List Nat)
deriving DecidableEq

/-- The knowledge identifier of a scanned file. -/
def fileId (owner repo : String) (f : ScanFile) : String :=
  knowledgeId owner repo f.relativePath

/-- The fingerprint the scan computes for a file (reads that fail contribute
no fingerprint; `getD` is only consulted for readable files). -/
def fileHash (f : ScanFile) : String := contentHash (f.bytes.getD [])

/-- `GitHubClient.createMemoriesFromFiles`: fold over the globbed files.  For
each file it reads the content, hashes it, derives the knowledge identifier,
looks the identifier up in the sink, skips when a stored document exists with
the same hash, and otherwise upserts.  A failing `fs.readFile` rejects the
awaited promise, so the whole loop stops there with an error; upserts already
performed persist.  Returns the final sink state, the identifiers upserted in
order, and the error if one occurred. -/
def createMemoriesFromFiles (owner repo : String) :
    List ScanFile → Store → Store × List String × Option String
  | [], store => (store, [], none)
  | f :: rest, store =>
    match f.bytes with
    | none => (store, [], some ("FileReadFailed: " ++ f.relativePath))
    | some bs =>
      let h := contentHash bs
      let id := knowledgeId owner repo f.relativePath
      match store.lookup id with
      | some stored =>
        if stored == h then createMemoriesFromFiles owner repo rest store
        else
          let r := createMemoriesFromFiles owner repo rest (storeSet store id h)
          (r.1, id :: r.2.1, r.2.2)
      | none =>
        let r := createMemoriesFromFiles owner repo rest (storeSet store id h)
        (r.1, id :: r.2.1, r.2.2)

/-- The scan's per-file change decision against a given sink state: a readable
file is treated as changed when no document is stored under its identifier or
the stored hash differs from the fresh one. -/
def fileChanged (owner repo : String) (store : Store) (f : ScanFile) : Bool :=
  match f.bytes with
  | none => false
  | some bs =>
    match store.lookup (knowledgeId owner repo f.relativePath) with
    | some stored => !(stored == contentHash bs)
    | none => true

/-! ### `cloneRepository` and `initialize` -/

/-- Outcome of the clone retry loop, carrying the number of clone attempts
performed. -/
inductive CloneResult where
  | success (attempts : Nat)
  | exhausted (attempts : Nat)
  | fellThrough (attempts : Nat)
deriving DecidableEq

/-- The `while (retries < maxRetries)` loop of `GitHubClient.cloneRepository`.
`outcomes n` tells whether the (n+1)-th clone attempt succeeds.  On success the
method returns; on failure it increments `retries` and throws once
`retries === maxRetries`.  `fuel` bounds the iterations (`maxRetries` units
suffice from `retries = 0`); `fellThrough` is the JavaScript fall-off-the-end
return, unreachable for positive `maxRetries`. -/
def cloneLoop (outcomes : Nat → Bool) (maxRetries : Nat) : Nat → Nat → CloneResult
  | _, 0 => .fellThrough 0
  | retries, fuel + 1 =>
    if retries < maxRetries then
      if outcomes retries then .success (retries + 1)
      else if retries + 1 = maxRetries then .exhausted (retries + 1)
      else cloneLoop outcomes maxRetries (retries + 1) fuel
    else .fellThrough retries

/-- `GitHubClient.cloneRepository`: the retry loop with `maxRetries = 3`
starting from `retries = 0`. -/
def cloneRepository (outcomes : Nat → Bool) : CloneResult :=
  cloneLoop outcomes 3 0 3

/-- Git-level operations performed by `initialize`, for tracing. -/
inductive GitOp where
  | mkdirOp
  | cloneAttempt
  | pullOp
  | checkoutOp
deriving DecidableEq

/-- The environment `initialize` runs against: whether a mirror already exists
at the repo path, the per-attempt clone outcomes, and whether `git.pull()` and
`git.checkout(branch)` succeed. -/
structure InitEnv where
  mirrorExists : Bool
  cloneOutcomes : Nat → Bool
  pullOk : Bool
  checkoutOk : Bool

/-- The trailing `if (this.config.branch) checkout` step of `initialize`
(a JavaScript truthiness test: the empty string is falsy). -/
def checkoutStep (branch : String) (ok : Bool) : List GitOp × Except String Unit :=
  if branch == "" then ([], .ok ())
  else ([.checkoutOp], if ok then .ok () else .error "checkout failed")

/-- `GitHubClient.initialize`: create the parent directory, then clone when no
mirror exists at the repo path and pull otherwise, then check out the
configured branch when it is non-empty.  Returns the trace of git operations
performed and the overall outcome. -/
def initializeClient (branch : String) (env : InitEnv) : List GitOp × Except String Unit :=
  if env.mirrorExists then
    if env.pullOk then
      let c := checkoutStep branch env.checkoutOk
      (.mkdirOp :: .pullOp :: c.1, c.2)
    else ([.mkdirOp, .pullOp], .error "pull failed")
  else
    match cloneRepository env.cloneOutcomes with
    | .success n =>
      let c := checkoutStep branch env.checkoutOk
      (.mkdirOp :: (List.replicate n .cloneAttempt ++ c.1), c.2)
    | .exhausted n =>
      (.mkdirOp :: List.replicate n .cloneAttempt, .error "clone exhausted")
    | .fellThrough n =>
      let c := checkoutStep branch env.checkoutOk
      (.mkdirOp :: (List.replicate n .cloneAttempt ++ c.1), c.2)

/-! ### Configuration validation (`githubEnvSchema` / `validateGithubConfig`) -/

/-- The raw settings `validateGithubConfig` reads from the runtime
(`getSetting` returns a string or null, modelled as `Option String`). -/
structure GithubEnv where
  GITHUB_OWNER : Option String
  GITHUB_REPO : Option String
  GITHUB_BRANCH : Option String
  GITHUB_PATH : Option String
  GITHUB_API_TOKEN : Option String

/-- A configuration accepted by the schema. -/
structure GithubConfig where
  owner : String
  repo : String
  branch : String
  ghPath : String
  token : String
deriving DecidableEq

/-- One `z.string().min(1)` field check: present and non-empty. -/
def zNonEmpty : Option String → Bool
  | some s => !s.isEmpty
  | none => false

/-- `validateGithubConfig` / `githubEnvSchema.parse`: every one of the five
settings, `GITHUB_PATH` included, is a required string of length at least 1;
`some` is the parsed configuration and `none` the thrown validation error. -/
def validateGithubConfig (e : GithubEnv) : Option GithubConfig :=
  match e.GITHUB_OWNER, e.GITHUB_REPO, e.GITHUB_BRANCH, e.GITHUB_PATH, e.GITHUB_API_TOKEN with
  | some o, some r, some b, some p, some t =>
    if o.isEmpty || r.isEmpty || b.isEmpty || p.isEmpty || t.isEmpty then none
    else some ⟨o, r, b, p, t⟩
  | _, _, _, _, _ => none

/-! ### The glob enumeration (`glob(searchPath, { nodir: true })`)

The filesystem below the scan root is a finite tree.  The pattern
`**/*` with `nodir: true` enumerates regular files at any depth at least 1,
and—per the glob library's default `dot: false`—matches no entry whose name
starts with a dot and descends into no such directory.  Recursion fuel bounds
the traversal depth (any fuel at least the tree height is enough). -/

/-- A filesystem subtree: a regular file with byte content, or a directory
with named entries. -/
inductive FSTree where
  | file (content : List Nat)
  | dir (entries : List (String × FSTree))

/-- Does a name begin with a dot (hidden for the glob default `dot: false`). -/
def hiddenName (s : String) : Bool :=
  match s.data with
  | [] => false
  | c :: _ => c == '.'

/-- The paths one directory entry contributes to the glob result, given the
enumeration `sub` of subtrees: nothing when the name is hidden, the name
itself for a regular file, and the name prefixed onto each deeper path for a
directory. -/
def entryFiles (sub : FSTree → List (List String)) (e : String × FSTree) :
    List (List String) :=
  if hiddenName e.1 then []
  else
    match e.2 with
    | .file _ => [[e.1]]
    | .dir _ => (sub e.2).map (e.1 :: ·)

/-- The relative paths (as component lists) produced by
`glob(root ++ "/**/*", { nodir: true })`, to traversal depth `d`. -/
def globFiles : Nat → FSTree → List (List String)
  | 0, _ => []
  | _, .file _ => []
  | d + 1, .dir entries => entries.flatMap (entryFiles (globFiles d))

/-- Is `p` the path of a regular file in the tree (resolving each component
through the directory entries). -/
def isFilePath : List String → FSTree → Bool
  | [], .file _ => true
  | [], .dir _ => false
  | _ :: _, .file _ => false
  | name :: p, .dir entries =>
    match entries.lookup name with
    | some t => isFilePath p t
    | none => false

/-- Entry names with no duplicates (what a real directory listing guarantees). -/
def nodupKeys : List String → Bool
  | [] => true
  | x :: xs => !(xs.contains x) && nodupKeys xs

/-- Well-formedness of the tree down to depth `d`: every directory listing
reachable within `d` steps has duplicate-free entry names. -/
def wfTree : Nat → FSTree → Bool
  | _, .file _ => true
  | 0, .dir _ => true
  | d + 1, .dir entries =>
    nodupKeys (entries.map Prod.fst) && entries.all (fun e => wfTree d e.2)

/-! ### Write-back (`createCommit` and `createPullRequest`) -/

/-- The working tree (and likewise a committed tree): an association list from
relative path to file content; a later binding shadows an earlier one. -/
abbrev WorkTree := List (String × String)

/-- One `fs.writeFile` of an edit into the working tree. -/
def setFile (tree : WorkTree) (p c : String) : WorkTree := (p, c) :: tree

/-- The `for (const file of files)` write loop shared by `createCommit` and
`createPullRequest`. -/
def applyEdits (tree : WorkTree) : List (String × String) → WorkTree
  | [] => tree
  | e :: rest => applyEdits (setFile tree e.1 e.2) rest

/-- The paths staged by `git.add(".")` and recorded by the subsequent commit:
every path at which the working tree differs from the committed tree. -/
def changedPaths (head work : WorkTree) : List String :=
  ((work.map Prod.fst ++ head.map Prod.fst).dedup).filter
    (fun p => work.lookup p ≠ head.lookup p)

/-- Mirror state for the write-back operations: the committed tree at HEAD and
the working tree. -/
structure RepoState where
  head : WorkTree
  work : WorkTree
deriving DecidableEq

/-- The files contained in one commit, with its message. -/
structure CommitRecord where
  message : String
  changedFiles : List String
deriving DecidableEq

/-- The pull request returned by the hosting API model. -/
structure PullRequestRecord where
  title : String
  headBranch : String
  baseBranch : String
deriving DecidableEq

/-- `GitHubClient.createCommit`: write every supplied edit, stage the entire
working tree with `git.add(".")`, commit, and push.  The commit's file set is
every path differing from HEAD, not only the supplied edits. -/
def createCommit (st : RepoState) (message : String) (files : List (String × String)) :
    RepoState × CommitRecord :=
  let work := applyEdits st.work files
  let staged := changedPaths st.head work
  (⟨work, work⟩, ⟨message, staged⟩)

/-- `GitHubClient.createPullRequest`: check out a new branch, write every
supplied edit, stage the entire working tree with `git.add(".")`, commit with
the title, push the branch, and open a pull request against
`config.branch || "main"`. -/
def createPullRequest (st : RepoState) (title branch : String)
    (files : List (String × String)) (configBranch : String) :
    RepoState × CommitRecord × PullRequestRecord :=
  let work := applyEdits st.work files
  let staged := changedPaths st.head work
  (⟨work, work⟩, ⟨title, staged⟩,
    ⟨title, branch, if configBranch == "" then "main" else configBranch⟩)

/-! ### Helper lemmas -/

theorem string_append_left_cancel {s a b : String} (h : s ++ a = s ++ b) : a = b := by
  have hd := congrArg String.data h
  rw [String.data_append, String.data_append] at hd
  have hab := List.append_cancel_left hd
  cases a
  cases b
  exact congrArg String.mk hab

theorem knowledgeId_inj (owner repo : String) :
    Function.Injective (knowledgeId owner repo) := by
  intro p q h
  unfold knowledgeId at h
  exact string_append_left_cancel h

theorem lookup_storeSet_same (store : Store) (id h : String) :
    (storeSet store id h).lookup id = some h := by
  simp [storeSet, List.lookup_cons]

theorem lookup_storeSet_other (store : Store) (id h x : String) (hx : x ≠ id) :
    (storeSet store id h).lookup x = store.lookup x := by
  have hb : (x == id) = false := beq_eq_false_iff_ne.mpr hx
  simp [storeSet, List.lookup_cons, hb]

theorem lookup_mem {α β : Type} [BEq α] [LawfulBEq α] {l : List (α × β)} {a : α} {b : β}
    (h : l.lookup a = some b) : (a, b) ∈ l := by
  induction l with
  | nil => simp [List.lookup] at h
  | cons e rest ih =>
    obtain ⟨k, v⟩ := e
    rw [List.lookup_cons] at h
    cases hk : a == k with
    | true =>
      rw [hk] at h
      have hak : a = k := beq_iff_eq.mp hk
      cases h
      exact hak ▸ List.mem_cons_self _ _
    | false =>
      rw [hk] at h
      exact List.mem_cons_of_mem _ (ih h)

theorem lookup_some_mem_keys {l : WorkTree} {q v : String}
    (h : l.lookup q = some v) : q ∈ l.map Prod.fst := by
  have := lookup_mem h
  exact List.mem_map.mpr ⟨(q, v), this, rfl⟩

theorem utf8DecodeAux_ascii (fuel : Nat) (bs : List Nat) (hle : bs.length ≤ fuel)
    (h : ∀ x ∈ bs, x < 128) : utf8DecodeAux fuel bs = bs := by
  induction fuel generalizing bs with
  | zero =>
    cases bs with
    | nil => rfl
    | cons b rest => simp at hle
  | succ fuel ih =>
    cases bs with
    | nil => rfl
    | cons b rest =>
      have hb : b < 128 := h b (List.mem_cons_self _ _)
      simp only [utf8DecodeAux]
      rw [if_pos hb]
      rw [ih rest (by simpa using Nat.le_of_succ_le_succ hle)
            (fun x hx => h x (List.mem_cons_of_mem _ hx))]

theorem utf8Encode_ascii (cs : List Nat) (h : ∀ x ∈ cs, x < 128) : utf8Encode cs = cs := by
  induction cs with
  | nil => rfl
  | cons c rest ih =>
    have hc : c < 128 := h c (List.mem_cons_self _ _)
    have hrest := ih (fun x hx => h x (List.mem_cons_of_mem _ hx))
    simp only [utf8Encode, List.flatMap_cons] at hrest ⊢
    rw [hrest, utf8EncodeChar, if_pos hc]
    rfl

theorem hashInput_ascii (bs : List Nat) (h : ∀ x ∈ bs, x < 128) : hashInput bs = bs := by
  unfold hashInput utf8DecodeLossy
  rw [utf8DecodeAux_ascii bs.length bs le_rfl h]
  exact utf8Encode_ascii bs h

/-- C2 counterexample: the fingerprint is not a digest of the raw bytes.  The
one-byte files 0xFE and 0xFF have different raw bytes, yet the byte sequences
actually hashed coincide (both lossily decode to U+FFFD), so the fingerprints
are equal without any SHA-256 collision. -/
theorem contentHash_not_raw_bytes :
    ([254] : List Nat) ≠ [255] ∧ hashInput [254] = hashInput [255] ∧
    contentHash [254] = contentHash [255] := by decide

/-- C2 (amended): the stored fingerprint is the SHA-256 hex digest of the
UTF-8 re-encoding of the lossy UTF-8 decoding of the file's raw bytes.  The
fingerprint depends only on the decoded text; for files whose bytes are plain
ASCII the digested bytes are exactly the raw bytes; and two files with
different raw bytes can share a fingerprint when their lossy decodings agree. -/
theorem contentHash_spec :
    (∀ b1 b2 : List Nat, utf8DecodeLossy b1 = utf8DecodeLossy b2 →
      contentHash b1 = contentHash b2) ∧
    (∀ bs : List Nat, (∀ x ∈ bs, x < 128) →
      hashInput bs = bs ∧ contentHash bs = sha256Hex bs) ∧
    (∃ b1 b2 : List Nat, b1 ≠ b2 ∧ contentHash b1 = contentHash b2) := by
  refine ⟨fun b1 b2 h => ?_, fun bs h => ?_, ⟨[254], [255], by decide, by decide⟩⟩
  · unfold contentHash hashInput
    rw [h]
  · have hh := hashInput_ascii bs h
    exact ⟨hh, by unfold contentHash; rw [hh]⟩

theorem contentHash_spec_witness :
    (∀ x ∈ ([104, 105] : List Nat), x < 128) ∧
    hashInput [104, 105] = [104, 105] ∧ contentHash [104, 105] = sha256Hex [104, 105] := by
  refine ⟨by decide, ?_, ?_⟩
  · exact (contentHash_spec.2.1 [104, 105] (by decide)).1
  · exact (contentHash_spec.2.1 [104, 105] (by decide)).2

/-- C9: the knowledge identifier seed is the unescaped concatenation
`github-{owner}-{repo}-{relativePath}`, so distinct (owner, repo, path)
triples can share one identifier: ("a", "b-c") and ("a-b", "c") collide. -/
theorem knowledgeId_cross_collision :
    knowledgeId "a" "b-c" "x" = knowledgeId "a-b" "c" "x" ∧
    ("a", "b-c", "x") ≠ (("a-b", "c", "x") : String × String × String) := by decide

/-- C3: `cloneRepository` attempts the clone at most 3 times: with two
failures then a success it returns success after exactly 3 attempts, with
three failures it raises the exhausted error after exactly 3 attempts, and
the outcome never depends on any attempt beyond the third. -/
theorem cloneRepository_retry (outcomes : Nat → Bool) :
    (outcomes 0 = false → outcomes 1 = false → outcomes 2 = true →
      cloneRepository outcomes = CloneResult.success 3) ∧
    (outcomes 0 = false → outcomes 1 = false → outcomes 2 = false →
      cloneRepository outcomes = CloneResult.exhausted 3) ∧
    (∀ other : Nat → Bool, outcomes 0 = other 0 → outcomes 1 = other 1 →
      outcomes 2 = other 2 → cloneRepository outcomes = cloneRepository other) := by
  refine ⟨fun h0 h1 h2 => ?_, fun h0 h1 h2 => ?_, fun other h0 h1 h2 => ?_⟩ <;>
    simp [cloneRepository, cloneLoop, h0, h1, h2]

theorem cloneRepository_retry_witness :
    cloneRepository (fun n => n == 2) = CloneResult.success 3 ∧
    cloneRepository (fun _ => false) = CloneResult.exhausted 3 :=
  ⟨(cloneRepository_retry (fun n => n == 2)).1 rfl rfl rfl,
   (cloneRepository_retry (fun _ => false)).2.1 rfl rfl rfl⟩

/-- C7: when a mirror already exists at the repo path, `initialize` attempts
no clone, performs exactly one pull, and a pull failure surfaces to the caller
with no retry. -/
theorem initializeClient_existing_mirror (branch : String) (env : InitEnv)
    (hm : env.mirrorExists = true) :
    (initializeClient branch env).1.count GitOp.cloneAttempt = 0 ∧
    (initializeClient branch env).1.count GitOp.pullOp = 1 ∧
    (env.pullOk = false →
      (initializeClient branch env).2 = Except.error "pull failed") := by
  cases hp : env.pullOk <;>
    by_cases hb : branch == "" <;>
      simp [initializeClient, hm, hp, checkoutStep, hb, List.count_cons, List.count_nil]

theorem initializeClient_existing_mirror_witness :
    (initializeClient "main" ⟨true, fun _ => false, false, true⟩).1.count GitOp.cloneAttempt = 0 ∧
    (initializeClient "main" ⟨true, fun _ => false, false, true⟩).1.count GitOp.pullOp = 1 ∧
    (initializeClient "main" ⟨true, fun _ => false, false, true⟩).2 = Except.error "pull failed" := by
  have h := initializeClient_existing_mirror "main" ⟨true, fun _ => false, false, true⟩ rfl
  exact ⟨h.1, h.2.1, h.2.2 rfl⟩

/-- C8 counterexample: a configuration with non-empty owner, repo, branch and
token but an empty path filter is rejected by the schema (`GITHUB_PATH` also
carries `min(1)`), while the claim says it must be accepted. -/
theorem validateGithubConfig_empty_path_rejected :
    validateGithubConfig ⟨some "a", some "b", some "c", some "", some "t"⟩ = none ∧
    "a".isEmpty = false ∧ "b".isEmpty = false ∧ "c".isEmpty = false ∧
    "t".isEmpty = false := by decide

/-- C8 (amended): configuration validation accepts exactly when all five
settings — owner, repo, branch, path AND token — are present and non-empty;
it rejects as soon as any one of the five, the path filter included, is
missing or empty. -/
theorem validateGithubConfig_iff (e : GithubEnv) :
    (validateGithubConfig e).isSome =
      (zNonEmpty e.GITHUB_OWNER && zNonEmpty e.GITHUB_REPO && zNonEmpty e.GITHUB_BRANCH &&
        zNonEmpty e.GITHUB_PATH && zNonEmpty e.GITHUB_API_TOKEN) := by
  obtain ⟨o, r, b, p, t⟩ := e
  rcases o with _ | o <;> rcases r with _ | r <;> rcases b with _ | b <;>
    rcases p with _ | p <;> rcases t with _ | t <;>
      simp [validateGithubConfig, zNonEmpty]
  cases ho : o.isEmpty <;> cases hr : r.isEmpty <;> cases hbb : b.isEmpty <;>
    cases hp : p.isEmpty <;> cases ht : t.isEmpty <;> simp [ho, hr, hbb, hp, ht]

theorem applyEdits_lookup_notMem (tree : WorkTree) (files : List (String × String))
    (q : String) (hq : q ∉ files.map Prod.fst) :
    (applyEdits tree files).lookup q = tree.lookup q := by
  induction files generalizing tree with
  | nil => rfl
  | cons e rest ih =>
    obtain ⟨k, v⟩ := e
    rw [List.map_cons] at hq
    have hq1 : q ≠ k := fun h => hq (h ▸ List.mem_cons_self _ _)
    have hq2 : q ∉ rest.map Prod.fst := fun h => hq (List.mem_cons_of_mem _ h)
    simp only [applyEdits]
    rw [ih _ hq2]
    have hb : (q == k) = false := beq_eq_false_iff_ne.mpr hq1
    simp [setFile, List.lookup_cons, hb]

theorem mem_changedPaths {head work : WorkTree} {q : String}
    (h : work.lookup q ≠ head.lookup q) : q ∈ changedPaths head work := by
  unfold changedPaths
  rw [List.mem_filter]
  refine ⟨List.mem_dedup.mpr (List.mem_append.mpr ?_), by simpa using h⟩
  rcases hw : work.lookup q with _ | v
  · rcases hh : head.lookup q with _ | v2
    · exact absurd (hw.trans hh.symm) h
    · exact Or.inr (lookup_some_mem_keys hh)
  · exact Or.inl (lookup_some_mem_keys hw)

/-- C10: `createCommit` and `createPullRequest` stage with `git.add(".")`, so
the commit they create contains every path at which the working tree differs
from HEAD — including files never mentioned in the supplied edit set. -/
theorem addAll_commits_working_tree (st : RepoState)
    (message title branch configBranch : String)
    (files : List (String × String)) (q : String)
    (hq : q ∉ files.map Prod.fst)
    (hdirty : st.work.lookup q ≠ st.head.lookup q) :
    q ∈ (createCommit st message files).2.changedFiles ∧
    q ∈ (createPullRequest st title branch files configBranch).2.1.changedFiles := by
  have hkeep : (applyEdits st.work files).lookup q = st.work.lookup q :=
    applyEdits_lookup_notMem st.work files q hq
  have hne : (applyEdits st.work files).lookup q ≠ st.head.lookup q := by
    rw [hkeep]
    exact hdirty
  exact ⟨mem_changedPaths hne, mem_changedPaths hne⟩

theorem addAll_commits_working_tree_witness :
    ("a" ∉ ([("b", "x")].map Prod.fst)) ∧
    (([("a", "2")] : WorkTree).lookup "a" ≠ ([("a", "1")] : WorkTree).lookup "a") ∧
    "a" ∈ (createCommit ⟨[("a", "1")], [("a", "2")]⟩ "m" [("b", "x")]).2.changedFiles ∧
    "a" ∈ (createPullRequest ⟨[("a", "1")], [("a", "2")]⟩ "t" "br" [("b", "x")]
            "main").2.1.changedFiles := by
  have h := addAll_commits_working_tree ⟨[("a", "1")], [("a", "2")]⟩ "m" "t" "br" "main"
    [("b", "x")] "a" (by decide) (by decide)
  exact ⟨by decide, by decide, h.1, h.2⟩

theorem scan_cons_unchanged (owner repo : String) (f : ScanFile) (bs : List Nat)
    (hb : f.bytes = some bs) (rest : List ScanFile) (store : Store)
    (hc : fileChanged owner repo store f = false) :
    createMemoriesFromFiles owner repo (f :: rest) store =
      createMemoriesFromFiles owner repo rest store := by
  simp only [createMemoriesFromFiles, hb]
  rcases hl : store.lookup (knowledgeId owner repo f.relativePath) with _ | stored
  · simp [fileChanged, hb, hl] at hc
  · simp [fileChanged, hb, hl] at hc
    simp [hc]

theorem scan_cons_changed (owner repo : String) (f : ScanFile) (bs : List Nat)
    (hb : f.bytes = some bs) (rest : List ScanFile) (store : Store)
    (hc : fileChanged owner repo store f = true) :
    createMemoriesFromFiles owner repo (f :: rest) store =
      ((createMemoriesFromFiles owner repo rest
          (storeSet store (fileId owner repo f) (contentHash bs))).1,
       fileId owner repo f ::
         (createMemoriesFromFiles owner repo rest
           (storeSet store (fileId owner repo f) (contentHash bs))).2.1,
       (createMemoriesFromFiles owner repo rest
         (storeSet store (fileId owner repo f) (contentHash bs))).2.2) := by
  simp only [createMemoriesFromFiles, hb, fileId]
  rcases hl : store.lookup (knowledgeId owner repo f.relativePath) with _ | stored
  · simp
  · simp [fileChanged, hb, hl] at hc
    simp [hc]

theorem unchanged_lookup (owner repo : String) (store : Store) (f : ScanFile) (bs : List Nat)
    (hb : f.bytes = some bs) (hc : fileChanged owner repo store f = false) :
    store.lookup (fileId owner repo f) = some (contentHash bs) := by
  unfold fileId
  rcases hl : store.lookup (knowledgeId owner repo f.relativePath) with _ | stored
  · simp [fileChanged, hb, hl] at hc
  · simp [fileChanged, hb, hl] at hc
    rw [hc]

theorem fileChanged_congr (owner repo : String) {s1 s2 : Store} (f : ScanFile)
    (h : s1.lookup (fileId owner repo f) = s2.lookup (fileId owner repo f)) :
    fileChanged owner repo s1 f = fileChanged owner repo s2 f := by
  unfold fileId at h
  rcases hb : f.bytes with _ | bs
  · simp [fileChanged, hb]
  · simp only [fileChanged, hb]
    rw [h]

theorem scan_readable_no_error (owner repo : String) (files : List ScanFile) (store : Store)
    (hr : ∀ f ∈ files, f.bytes.isSome) :
    (createMemoriesFromFiles owner repo files store).2.2 = none := by
  induction files generalizing store with
  | nil => rfl
  | cons f rest ih =>
    obtain ⟨bs, hb⟩ := Option.isSome_iff_exists.mp (hr f (List.mem_cons_self _ _))
    have hrest : ∀ g ∈ rest, g.bytes.isSome :=
      fun g hg => hr g (List.mem_cons_of_mem _ hg)
    cases hc : fileChanged owner repo store f with
    | false =>
      rw [scan_cons_unchanged owner repo f bs hb rest store hc]
      exact ih store hrest
    | true =>
      rw [scan_cons_changed owner repo f bs hb rest store hc]
      exact ih _ hrest

theorem scan_lookup_frame (owner repo : String) (files : List ScanFile) (store : Store)
    (x : String) (hx : x ∉ files.map (fileId owner repo)) :
    ((createMemoriesFromFiles owner repo files store).1).lookup x = store.lookup x := by
  induction files generalizing store with
  | nil => rfl
  | cons f rest ih =>
    rw [List.map_cons] at hx
    have hxf : x ≠ fileId owner repo f := fun h => hx (h ▸ List.mem_cons_self _ _)
    have hxr : x ∉ rest.map (fileId owner repo) :=
      fun h => hx (List.mem_cons_of_mem _ h)
    rcases hb : f.bytes with _ | bs
    · simp only [createMemoriesFromFiles, hb]
    · cases hc : fileChanged owner repo store f with
      | false =>
        rw [scan_cons_unchanged owner repo f bs hb rest store hc]
        exact ih store hxr
      | true =>
        rw [scan_cons_changed owner repo f bs hb rest store hc]
        rw [ih _ hxr]
        exact lookup_storeSet_other store (fileId owner repo f) (contentHash bs) x hxf

theorem scan_records_hash (owner repo : String) (files : List ScanFile) (store : Store)
    (hr : ∀ f ∈ files, f.bytes.isSome)
    (hn : (files.map (fileId owner repo)).Nodup) :
    ∀ f ∈ files,
      ((createMemoriesFromFiles owner repo files store).1).lookup (fileId owner repo f) =
        some (fileHash f) := by
  induction files generalizing store with
  | nil =>
    intro f hf
    simp at hf
  | cons g rest ih =>
    intro f hf
    obtain ⟨bs, hb⟩ := Option.isSome_iff_exists.mp (hr g (List.mem_cons_self _ _))
    have hrest : ∀ x ∈ rest, x.bytes.isSome :=
      fun x hx => hr x (List.mem_cons_of_mem _ hx)
    rw [List.map_cons] at hn
    have hnotin : fileId owner repo g ∉ rest.map (fileId owner repo) :=
      (List.nodup_cons.mp hn).1
    have hnr : (rest.map (fileId owner repo)).Nodup := (List.nodup_cons.mp hn).2
    rcases List.mem_cons.mp hf with rfl | hfr
    · have hH : fileHash f = contentHash bs := by simp [fileHash, hb]
      cases hc : fileChanged owner repo store f with
      | false =>
        rw [scan_cons_unchanged owner repo f bs hb rest store hc]
        rw [scan_lookup_frame owner repo rest store _ hnotin]
        rw [unchanged_lookup owner repo store f bs hb hc, hH]
      | true =>
        rw [scan_cons_changed owner repo f bs hb rest store hc]
        rw [scan_lookup_frame owner repo rest _ _ hnotin]
        rw [hH]
        exact lookup_storeSet_same store _ _
    · cases hc : fileChanged owner repo store g with
      | false =>
        rw [scan_cons_unchanged owner repo g bs hb rest store hc]
        exact ih store hrest hnr f hfr
      | true =>
        rw [scan_cons_changed owner repo g bs hb rest store hc]
        exact ih _ hrest hnr f hfr

theorem scan_clean (owner repo : String) (files : List ScanFile) (store : Store)
    (hr : ∀ f ∈ files, f.bytes.isSome)
    (hs : ∀ f ∈ files, store.lookup (fileId owner repo f) = some (fileHash f)) :
    createMemoriesFromFiles owner repo files store = (store, [], none) := by
  induction files with
  | nil => rfl
  | cons f rest ih =>
    obtain ⟨bs, hb⟩ := Option.isSome_iff_exists.mp (hr f (List.mem_cons_self _ _))
    have hH : fileHash f = contentHash bs := by simp [fileHash, hb]
    have hc : fileChanged owner repo store f = false := by
      have hl := hs f (List.mem_cons_self _ _)
      rw [hH] at hl
      unfold fileId at hl
      simp [fileChanged, hb, hl]
    rw [scan_cons_unchanged owner repo f bs hb rest store hc]
    exact ih (fun g hg => hr g (List.mem_cons_of_mem _ hg))
      (fun g hg => hs g (List.mem_cons_of_mem _ hg))

theorem scan_nodup_ids (owner repo : String) (files : List ScanFile)
    (hn : (files.map ScanFile.relativePath).Nodup) :
    (files.map (fileId owner repo)).Nodup := by
  have hmm : files.map (fileId owner repo) =
      (files.map ScanFile.relativePath).map (knowledgeId owner repo) := by
    rw [List.map_map]
    rfl
  rw [hmm]
  exact hn.map (knowledgeId_inj owner repo)

/-- C1: rescanning an unchanged mirror performs zero upserts.  After one pass
of `createMemoriesFromFiles` over readable, distinctly named files, a second
pass over the same files against the resulting sink state skips every file
(each stored fingerprint equals the freshly computed one) and upserts
nothing. -/
theorem scan_second_run_no_upserts (owner repo : String) (files : List ScanFile)
    (store : Store)
    (hr : ∀ f ∈ files, f.bytes.isSome)
    (hn : (files.map ScanFile.relativePath).Nodup) :
    createMemoriesFromFiles owner repo files
        (createMemoriesFromFiles owner repo files store).1 =
      ((createMemoriesFromFiles owner repo files store).1, [], none) :=
  scan_clean owner repo files _ hr
    (scan_records_hash owner repo files store hr (scan_nodup_ids owner repo files hn))

theorem scan_second_run_no_upserts_witness :
    (∀ f ∈ ([⟨"guides/a.md", some [97]⟩, ⟨"guides/b.md", some [98]⟩] : List ScanFile),
      f.bytes.isSome) ∧
    (([⟨"guides/a.md", some [97]⟩, ⟨"guides/b.md", some [98]⟩] : List ScanFile).map
      ScanFile.relativePath).Nodup ∧
    createMemoriesFromFiles "acme" "docs"
        [⟨"guides/a.md", some [97]⟩, ⟨"guides/b.md", some [98]⟩]
        (createMemoriesFromFiles "acme" "docs"
          [⟨"guides/a.md", some [97]⟩, ⟨"guides/b.md", some [98]⟩] []).1 =
      ((createMemoriesFromFiles "acme" "docs"
          [⟨"guides/a.md", some [97]⟩, ⟨"guides/b.md", some [98]⟩] []).1, [], none) :=
  ⟨by decide, by decide,
    scan_second_run_no_upserts "acme" "docs"
      [⟨"guides/a.md", some [97]⟩, ⟨"guides/b.md", some [98]⟩] [] (by decide) (by decide)⟩

theorem scan_upsert_list (owner repo : String) (files : List ScanFile) (store : Store)
    (hr : ∀ f ∈ files, f.bytes.isSome)
    (hn : (files.map (fileId owner repo)).Nodup) :
    (createMemoriesFromFiles owner repo files store).2.1 =
      (files.filter (fileChanged owner repo store)).map (fileId owner repo) := by
  induction files generalizing store with
  | nil => rfl
  | cons f rest ih =>
    obtain ⟨bs, hb⟩ := Option.isSome_iff_exists.mp (hr f (List.mem_cons_self _ _))
    have hrest : ∀ x ∈ rest, x.bytes.isSome :=
      fun x hx => hr x (List.mem_cons_of_mem _ hx)
    rw [List.map_cons] at hn
    have hnotin : fileId owner repo f ∉ rest.map (fileId owner repo) :=
      (List.nodup_cons.mp hn).1
    have hnr : (rest.map (fileId owner repo)).Nodup := (List.nodup_cons.mp hn).2
    cases hc : fileChanged owner repo store f with
    | false =>
      rw [scan_cons_unchanged owner repo f bs hb rest store hc]
      rw [List.filter_cons, hc]
      simp only [if_neg Bool.false_ne_true]
      exact ih store hrest hnr
    | true =>
      rw [scan_cons_changed owner repo f bs hb rest store hc]
      rw [List.filter_cons, hc]
      simp only [if_pos rfl, List.map_cons]
      rw [ih _ hrest hnr]
      have hfc : ∀ g ∈ rest,
          fileChanged owner repo (storeSet store (fileId owner repo f) (contentHash bs)) g =
            fileChanged owner repo store g := by
        intro g hg
        apply fileChanged_congr
        apply lookup_storeSet_other
        intro hgf
        exact hnotin (hgf ▸ List.mem_map_of_mem (fileId owner repo) hg)
      rw [List.filter_congr hfc]
      simp

theorem scan_skip_frame (owner repo : String) (files : List ScanFile) (store : Store)
    (hr : ∀ f ∈ files, f.bytes.isSome)
    (hn : (files.map (fileId owner repo)).Nodup) :
    ∀ f ∈ files, fileChanged owner repo store f = false →
      ((createMemoriesFromFiles owner repo files store).1).lookup (fileId owner repo f) =
        store.lookup (fileId owner repo f) := by
  induction files generalizing store with
  | nil =>
    intro f hf
    simp at hf
  | cons g rest ih =>
    intro f hf hcf
    obtain ⟨bs, hb⟩ := Option.isSome_iff_exists.mp (hr g (List.mem_cons_self _ _))
    have hrest : ∀ x ∈ rest, x.bytes.isSome :=
      fun x hx => hr x (List.mem_cons_of_mem _ hx)
    rw [List.map_cons] at hn
    have hnotin : fileId owner repo g ∉ rest.map (fileId owner repo) :=
      (List.nodup_cons.mp hn).1
    have hnr : (rest.map (fileId owner repo)).Nodup := (List.nodup_cons.mp hn).2
    rcases List.mem_cons.mp hf with rfl | hfr
    · rw [scan_cons_unchanged owner repo f bs hb rest store hcf]
      exact scan_lookup_frame owner repo rest store _ hnotin
    · cases hc : fileChanged owner repo store g with
      | false =>
        rw [scan_cons_unchanged owner repo g bs hb rest store hc]
        exact ih store hrest hnr f hfr hcf
      | true =>
        rw [scan_cons_changed owner repo g bs hb rest store hc]
        have hne : fileId owner repo f ≠ fileId owner repo g := by
          intro hgf
          exact hnotin (hgf ▸ List.mem_map_of_mem (fileId owner repo) hfr)
        have hl2 : (storeSet store (fileId owner repo g) (contentHash bs)).lookup
            (fileId owner repo f) = store.lookup (fileId owner repo f) :=
          lookup_storeSet_other store _ _ _ hne
        have hcf2 : fileChanged owner repo
            (storeSet store (fileId owner repo g) (contentHash bs)) f = false :=
          (fileChanged_congr owner repo f hl2).trans hcf
        rw [ih _ hrest hnr f hfr hcf2, hl2]

/-- C5: a scan over readable, distinctly named files upserts exactly the
identifiers of files that are new (no stored record) or changed (stored
fingerprint differs from the fresh one), in scan order; every file whose
stored fingerprint equals the fresh one is skipped and its stored record is
left untouched; the scan completes without error. -/
theorem scan_upserts_exactly_changed (owner repo : String) (files : List ScanFile)
    (store : Store)
    (hr : ∀ f ∈ files, f.bytes.isSome)
    (hn : (files.map ScanFile.relativePath).Nodup) :
    (createMemoriesFromFiles owner repo files store).2.1 =
      (files.filter (fileChanged owner repo store)).map (fileId owner repo) ∧
    (∀ f ∈ files, fileChanged owner repo store f = false →
      ((createMemoriesFromFiles owner repo files store).1).lookup (fileId owner repo f) =
        store.lookup (fileId owner repo f)) ∧
    (createMemoriesFromFiles owner repo files store).2.2 = none :=
  ⟨scan_upsert_list owner repo files store hr (scan_nodup_ids owner repo files hn),
   scan_skip_frame owner repo files store hr (scan_nodup_ids owner repo files hn),
   scan_readable_no_error owner repo files store hr⟩

theorem scan_upserts_exactly_changed_witness :
    ((createMemoriesFromFiles "acme" "docs"
        [⟨"guides/a.md", some [97]⟩, ⟨"guides/b.md", some [98]⟩, ⟨"guides/c.md", some [99]⟩]
        [(knowledgeId "acme" "docs" "guides/a.md", "H1"),
         (knowledgeId "acme" "docs" "guides/b.md", contentHash [98])]).2.1 =
      (([⟨"guides/a.md", some [97]⟩, ⟨"guides/b.md", some [98]⟩,
         ⟨"guides/c.md", some [99]⟩] : List ScanFile).filter
        (fileChanged "acme" "docs"
          [(knowledgeId "acme" "docs" "guides/a.md", "H1"),
           (knowledgeId "acme" "docs" "guides/b.md", contentHash [98])])).map
        (fileId "acme" "docs")) ∧
    ((createMemoriesFromFiles "acme" "docs"
        [⟨"guides/a.md", some [97]⟩, ⟨"guides/b.md", some [98]⟩, ⟨"guides/c.md", some [99]⟩]
        [(knowledgeId "acme" "docs" "guides/a.md", "H1"),
         (knowledgeId "acme" "docs" "guides/b.md", contentHash [98])]).2.1 =
      [knowledgeId "acme" "docs" "guides/a.md", knowledgeId "acme" "docs" "guides/c.md"]) :=
  ⟨(scan_upserts_exactly_changed "acme" "docs"
      [⟨"guides/a.md", some [97]⟩, ⟨"guides/b.md", some [98]⟩, ⟨"guides/c.md", some [99]⟩]
      [(knowledgeId "acme" "docs" "guides/a.md", "H1"),
       (knowledgeId "acme" "docs" "guides/b.md", contentHash [98])]
      (by decide) (by decide)).1,
   by decide⟩

/-- C4 counterexample: with an unreadable file in the middle of the scan, the
pass does not skip and continue - it aborts: the whole run surfaces an error
and the changed file listed after the unreadable one is never upserted. -/
theorem scan_abort_counterexample :
    ((createMemoriesFromFiles "o" "r"
        [⟨"a.md", some [97]⟩, ⟨"b.md", none⟩, ⟨"c.md", some [99]⟩] []).2.2 ≠ none) ∧
    knowledgeId "o" "r" "c.md" ∉
      (createMemoriesFromFiles "o" "r"
        [⟨"a.md", some [97]⟩, ⟨"b.md", none⟩, ⟨"c.md", some [99]⟩] []).2.1 := by decide

/-- C4 (amended): when a listed file is unreadable, `createMemoriesFromFiles`
aborts at that file: upserts performed before it persist, no later file is
processed, and the failure surfaces as a whole-scan error (the `fs.readFile`
rejection propagates out of the unguarded loop). -/
theorem scan_aborts_at_unreadable (owner repo : String) (pre post : List ScanFile)
    (f : ScanFile) (store : Store)
    (hpre : ∀ g ∈ pre, g.bytes.isSome) (hf : f.bytes = none) :
    createMemoriesFromFiles owner repo (pre ++ f :: post) store =
      ((createMemoriesFromFiles owner repo pre store).1,
       (createMemoriesFromFiles owner repo pre store).2.1,
       some ("FileReadFailed: " ++ f.relativePath)) := by
  induction pre generalizing store with
  | nil => simp only [List.nil_append, createMemoriesFromFiles, hf]
  | cons g rest ih =>
    obtain ⟨bs, hb⟩ := Option.isSome_iff_exists.mp (hpre g (List.mem_cons_self _ _))
    have hrest : ∀ x ∈ rest, x.bytes.isSome :=
      fun x hx => hpre x (List.mem_cons_of_mem _ hx)
    rw [List.cons_append]
    cases hc : fileChanged owner repo store g with
    | false =>
      rw [scan_cons_unchanged owner repo g bs hb (rest ++ f :: post) store hc,
          scan_cons_unchanged owner repo g bs hb rest store hc]
      exact ih store hrest
    | true =>
      rw [scan_cons_changed owner repo g bs hb (rest ++ f :: post) store hc,
          scan_cons_changed owner repo g bs hb rest store hc]
      rw [ih _ hrest]

theorem scan_aborts_at_unreadable_witness :
    (∀ g ∈ ([⟨"a.md", some [97]⟩] : List ScanFile), g.bytes.isSome) ∧
    (⟨"b.md", none⟩ : ScanFile).bytes = none ∧
    createMemoriesFromFiles "o" "r"
        ([⟨"a.md", some [97]⟩] ++ ⟨"b.md", none⟩ :: [⟨"c.md", some [99]⟩]) [] =
      ((createMemoriesFromFiles "o" "r" [⟨"a.md", some [97]⟩] []).1,
       (createMemoriesFromFiles "o" "r" [⟨"a.md", some [97]⟩] []).2.1,
       some ("FileReadFailed: " ++ "b.md")) :=
  ⟨by decide, rfl,
   scan_aborts_at_unreadable "o" "r" [⟨"a.md", some [97]⟩] [⟨"c.md", some [99]⟩]
     ⟨"b.md", none⟩ [] (by decide) rfl⟩

theorem wfTree_dir {d : Nat} {entries : List (String × FSTree)}
    (h : wfTree (d + 1) (.dir entries) = true) :
    nodupKeys (entries.map Prod.fst) = true ∧ ∀ e ∈ entries, wfTree d e.2 = true := by
  simp only [wfTree, Bool.and_eq_true, List.all_eq_true] at h
  exact h

theorem lookup_of_mem_nodupKeys {entries : List (String × FSTree)} {name : String}
    {t : FSTree} (hmem : (name, t) ∈ entries)
    (hn : nodupKeys (entries.map Prod.fst) = true) :
    entries.lookup name = some t := by
  induction entries with
  | nil => simp at hmem
  | cons e rest ih =>
    obtain ⟨k, v⟩ := e
    rw [List.map_cons] at hn
    simp only [nodupKeys, Bool.and_eq_true] at hn
    rcases List.mem_cons.mp hmem with heq | hmem2
    · obtain ⟨rfl, rfl⟩ := Prod.mk.injEq .. ▸ heq
      simp [List.lookup_cons]
    · have hnk : name ≠ k := by
        intro hid
        have hnc := hn.1
        simp at hnc
        exact hnc t (hid ▸ hmem2)
      have hbk : (name == k) = false := beq_eq_false_iff_ne.mpr hnk
      rw [List.lookup_cons, hbk]
      exact ih hmem2 hn.2

theorem entryFiles_head {sub : FSTree → List (List String)} {e : String × FSTree}
    {p : List String} (h : p ∈ entryFiles sub e) : ∃ q, p = e.1 :: q := by
  unfold entryFiles at h
  split at h
  · simp at h
  · split at h
    · simp at h
      exact ⟨[], by simp [h]⟩
    · obtain ⟨q, _, heq⟩ := List.mem_map.mp h
      exact ⟨q, heq.symm⟩

theorem flatMap_entryFiles_nodup (d : Nat)
    (ihd : ∀ t2 : FSTree, wfTree d t2 = true → (globFiles d t2).Nodup) :
    ∀ entries : List (String × FSTree),
      nodupKeys (entries.map Prod.fst) = true →
      (∀ e ∈ entries, wfTree d e.2 = true) →
      (entries.flatMap (entryFiles (globFiles d))).Nodup := by
  intro entries
  induction entries with
  | nil =>
    intro _ _
    simp
  | cons e rest ihe =>
    intro hkeys hsub
    rw [List.map_cons] at hkeys
    simp only [nodupKeys, Bool.and_eq_true] at hkeys
    rw [List.flatMap_cons]
    apply List.Nodup.append
    · unfold entryFiles
      split
      · simp
      · split
        · simp
        · exact (ihd e.2 (hsub e (List.mem_cons_self _ _))).map List.cons_injective
    · exact ihe hkeys.2 (fun x hx => hsub x (List.mem_cons_of_mem _ hx))
    · intro p hp hp2
      obtain ⟨q, rfl⟩ := entryFiles_head hp
      obtain ⟨e2, he2, hpe2⟩ := List.mem_flatMap.mp hp2
      obtain ⟨n2, t2⟩ := e2
      obtain ⟨q2, heq⟩ := entryFiles_head hpe2
      injection heq with h1 h2
      have hnc := hkeys.1
      simp at hnc
      refine hnc t2 ?_
      rw [h1]
      exact he2

theorem globFiles_nodup (d : Nat) (t : FSTree) (hwf : wfTree d t = true) :
    (globFiles d t).Nodup := by
  induction d generalizing t with
  | zero => simp [globFiles]
  | succ d ih =>
    cases t with
    | file c => simp [globFiles]
    | dir entries =>
      obtain ⟨hkeys, hsub⟩ := wfTree_dir hwf
      simp only [globFiles]
      exact flatMap_entryFiles_nodup d ih entries hkeys hsub

theorem mem_globFiles (d : Nat) (t : FSTree) (p : List String)
    (hwf : wfTree d t = true) (hd : p.length ≤ d) :
    p ∈ globFiles d t ↔
      p ≠ [] ∧ isFilePath p t = true ∧ p.all (fun s => !hiddenName s) = true := by
  induction d generalizing t p with
  | zero =>
    have hp : p = [] := List.length_eq_zero.mp (Nat.le_zero.mp hd)
    subst hp
    simp [globFiles]
  | succ d ih =>
    cases t with
    | file c =>
      cases p with
      | nil => simp [globFiles, isFilePath]
      | cons name q => simp [globFiles, isFilePath]
    | dir entries =>
      obtain ⟨hkeys, hsub⟩ := wfTree_dir hwf
      cases p with
      | nil =>
        constructor
        · intro hmem
          obtain ⟨e, _, hme⟩ := List.mem_flatMap.mp hmem
          obtain ⟨q, hq⟩ := entryFiles_head hme
          exact absurd hq (by simp)
        · rintro ⟨hne, _, _⟩
          exact absurd rfl hne
      | cons name q =>
        have hdq : q.length ≤ d := by
          simp only [List.length_cons] at hd
          omega
        simp only [globFiles, List.mem_flatMap]
        constructor
        · rintro ⟨e, he, hmem⟩
          obtain ⟨n, sub⟩ := e
          unfold entryFiles at hmem
          by_cases hh : hiddenName n = true
          · rw [if_pos hh] at hmem
            simp at hmem
          · rw [if_neg hh] at hmem
            have hh2 : hiddenName n = false := by simpa using hh
            cases sub with
            | file c2 =>
              simp at hmem
              obtain ⟨rfl, rfl⟩ := hmem
              refine ⟨by simp, ?_, ?_⟩
              · simp only [isFilePath]
                rw [lookup_of_mem_nodupKeys he hkeys]
                rfl
              · simp [hh2]
            | dir es2 =>
              obtain ⟨q2, hq2, heq⟩ := List.mem_map.mp hmem
              injection heq with h1 h2
              subst h1
              subst h2
              have hwf2 : wfTree d (.dir es2) = true := hsub (n, .dir es2) he
              obtain ⟨hq2ne, hq2path, hq2vis⟩ := (ih (.dir es2) q2 hwf2 hdq).mp hq2
              refine ⟨by simp, ?_, ?_⟩
              · simp only [isFilePath]
                rw [lookup_of_mem_nodupKeys he hkeys]
                exact hq2path
              · simp only [List.all_cons, Bool.and_eq_true]
                exact ⟨by simp [hh2], hq2vis⟩
        · rintro ⟨hne, hpath, hvis⟩
          simp only [isFilePath] at hpath
          simp only [List.all_cons, Bool.and_eq_true] at hvis
          have hh2 : hiddenName name = false := by simpa using hvis.1
          rcases hl : entries.lookup name with _ | sub
          · rw [hl] at hpath
            simp at hpath
          · rw [hl] at hpath
            simp only [Option.some.injEq] at hpath
            have hmem : (name, sub) ∈ entries := lookup_mem hl
            refine ⟨(name, sub), hmem, ?_⟩
            unfold entryFiles
            rw [if_neg (by simp [hh2])]
            cases sub with
            | file c2 =>
              cases q with
              | nil => simp
              | cons a r => simp [isFilePath] at hpath
            | dir es2 =>
              have hqne : q ≠ [] := by
                intro hq0
                subst hq0
                simp [isFilePath] at hpath
              have hwf2 : wfTree d (.dir es2) = true := hsub (name, .dir es2) hmem
              have hq : q ∈ globFiles d (.dir es2) :=
                (ih (.dir es2) q hwf2 hdq).mpr ⟨hqne, hpath, hvis.2⟩
              exact List.mem_map_of_mem _ hq

/-- C6 counterexample: the glob default `dot: false` hides dot entries, so a
regular file below a dot directory (here `.git/config`) is a regular file of
the subtree yet never appears in the scanned sequence, while the visible
`a.md` does. -/
theorem globFiles_misses_hidden :
    isFilePath [".git", "config"]
        (FSTree.dir [(".git", FSTree.dir [("config", FSTree.file [97])]),
                     ("a.md", FSTree.file [98])]) = true ∧
    [".git", "config"] ∉ globFiles 2
        (FSTree.dir [(".git", FSTree.dir [("config", FSTree.file [97])]),
                     ("a.md", FSTree.file [98])]) ∧
    ["a.md"] ∈ globFiles 2
        (FSTree.dir [(".git", FSTree.dir [("config", FSTree.file [97])]),
                     ("a.md", FSTree.file [98])]) := by decide

/-- C6 (amended): over a well-formed subtree (duplicate-free directory
listings), the scan's glob enumeration lists exactly the non-hidden regular
files: a path of depth within the traversal bound is enumerated iff it is
non-empty, resolves to a regular file, and none of its components starts with
a dot (the glob default `dot: false` never matches dot entries, `.git`
included); and no path is enumerated twice. -/
theorem globFiles_enumeration (d : Nat) (t : FSTree) (p : List String)
    (hwf : wfTree d t = true) :
    (globFiles d t).Nodup ∧
    (p.length ≤ d →
      (p ∈ globFiles d t ↔
        p ≠ [] ∧ isFilePath p t = true ∧ p.all (fun s => !hiddenName s) = true)) :=
  ⟨globFiles_nodup d t hwf, fun hd => mem_globFiles d t p hwf hd⟩

theorem globFiles_enumeration_witness :
    wfTree 2 (FSTree.dir [("docs", FSTree.dir [("x.md", FSTree.file [97])]),
                          ("a.md", FSTree.file [98])]) = true ∧
    (globFiles 2 (FSTree.dir [("docs", FSTree.dir [("x.md", FSTree.file [97])]),
                              ("a.md", FSTree.file [98])])).Nodup ∧
    (["docs", "x.md"] ∈ globFiles 2
        (FSTree.dir [("docs", FSTree.dir [("x.md", FSTree.file [97])]),
                     ("a.md", FSTree.file [98])]) ↔
      ["docs", "x.md"] ≠ [] ∧
      isFilePath ["docs", "x.md"]
          (FSTree.dir [("docs", FSTree.dir [("x.md", FSTree.file [97])]),
                       ("a.md", FSTree.file [98])]) = true ∧
      (["docs", "x.md"].all (fun s => !hiddenName s)) = true) ∧
    globFiles 2 (FSTree.dir [("docs", FSTree.dir [("x.md", FSTree.file [97])]),
                             ("a.md", FSTree.file [98])]) =
      [["docs", "x.md"], ["a.md"]] :=
  ⟨by decide,
   (globFiles_enumeration 2
      (FSTree.dir [("docs", FSTree.dir [("x.md", FSTree.file [97])]),
                   ("a.md", FSTree.file [98])]) ["docs", "x.md"] (by decide)).1,
   (globFiles_enumeration 2
      (FSTree.dir [("docs", FSTree.dir [("x.md", FSTree.file [97])]),
                   ("a.md", FSTree.file [98])]) ["docs", "x.md"] (by decide)).2
     (by decide),
   by decide⟩
